import Mathlib

/-!
Verification of the Paranoid-Hash library (src/lib.rs) against its
natural-language specification.

Modelling conventions:
* Bytes are `Nat` values (with `< 256` hypotheses where byte range matters);
  strings are lists of their bytes (hash digests are ASCII hexadecimal).
* Rust `Result<T, FileError>` becomes `Except FileError T`; a `panic!` /
  `unwrap` / `expect` outcome is modelled as `Option.none` where a claim is
  about the fallible behaviour itself.
* The filesystem is an explicit map `String → Option (List Nat)` from paths to
  file contents; a `none` entry is a path that does not exist.
* The external cryptographic primitives (BLAKE2b from `blake2_rfc`, SHA1 /
  SHA256 / SHA512 from `crypto_hash`) and the `hex` crate codec are not part
  of this repository; they are modelled from the spec (see the doc comments
  starting with `Modelled from the spec:`).
* Rust `String::to_lowercase` / uppercase are modelled by their action on
  ASCII bytes, the alphabet of hash digests.
-/

/-- The platform hash algorithm selector (`enum OsAlgorithm` in lib.rs). -/
inductive OsAlgorithm where
  | SHA1
  | SHA256
  | SHA512
deriving DecidableEq, Repr

/-- The error enum of lib.rs (`enum FileError`). -/
inductive FileError where
  | FileNotFound
  | OsHashingError
deriving DecidableEq, Repr

/-- The hashing configuration struct (`struct ParanoidHash` in lib.rs). -/
structure ParanoidHash where
  digest_size : Nat
  os_hash_function : OsAlgorithm
deriving DecidableEq, Repr

/-- A filesystem: a map from paths to the byte contents of existing files. -/
def FileSystem : Type := String → Option (List Nat)

/-- Modelled from the spec: the portable BLAKE2b-family primitive (provided by
the external `blake2_rfc` crate, out of scope per the spec: "does not
implement the underlying hash algorithms themselves").  Per the spec it is "a
BLAKE2b-family hash initialized with output length `digest_size` bytes,
optionally keyed, over the full buffer, producing `digest_size` raw bytes".
The internal compression is abstracted by a deterministic mixing of the key
and the data that yields `outLen` bytes. -/
def blake2b (outLen : Nat) (key data : List Nat) : List Nat :=
  (List.range outLen).map (fun i =>
    ((key.foldl (fun acc b => (acc * 131 + b) % 256) (outLen % 256)) * 31
      + data.foldl (fun acc b => (acc * 33 + b) % 256) 0 + i * 17) % 256)

/-- The raw output length in bytes of each platform algorithm. -/
def osDigestLength : OsAlgorithm → Nat
  | OsAlgorithm.SHA1 => 20
  | OsAlgorithm.SHA256 => 32
  | OsAlgorithm.SHA512 => 64

/-- Modelled from the spec: the platform hash primitive (provided by the
external `crypto_hash` crate, out of scope per the spec).  Per the spec it
computes "the selected platform algorithm (SHA-1, SHA-256, or SHA-512) over
the same full buffer, producing the algorithm's fixed-length raw output"; the
primitive is unkeyed.  The compression is abstracted by a deterministic
mixing of the data yielding `osDigestLength alg` bytes. -/
def osHashBytes (alg : OsAlgorithm) (data : List Nat) : List Nat :=
  (List.range (osDigestLength alg)).map (fun i =>
    (data.foldl (fun acc b => (acc * 37 + b) % 256) (osDigestLength alg)
      + i * 13) % 256)

/-- One uppercase hexadecimal digit (as an ASCII byte) for a value below 16. -/
def hexDigitUpper (n : Nat) : Nat :=
  if n < 10 then 48 + n else 55 + n

/-- Modelled from the spec: the `hex` crate's `encode_upper` ("maps each byte
to two uppercase hex characters, total length `2 * len(bytes)`"). -/
def hexEncodeUpper : List Nat → List Nat
  | [] => []
  | b :: rest => hexDigitUpper (b / 16) :: hexDigitUpper (b % 16) :: hexEncodeUpper rest

/-- The value of one hexadecimal digit character (either case), or `none` for
a non-hex character. -/
def hexVal (c : Nat) : Option Nat :=
  if 48 ≤ c ∧ c ≤ 57 then some (c - 48)
  else if 65 ≤ c ∧ c ≤ 70 then some (c - 55)
  else if 97 ≤ c ∧ c ≤ 102 then some (c - 87)
  else none

/-- Modelled from the spec: the `hex` crate's `decode` ("inverse mapping;
fails when the string has odd length or contains non-hex characters"). -/
def hexDecode : List Nat → Option (List Nat)
  | [] => some []
  | [_] => none
  | c1 :: c2 :: rest => do
      let hi ← hexVal c1
      let lo ← hexVal c2
      let tail ← hexDecode rest
      pure ((16 * hi + lo) :: tail)

/-- The action of Rust `String::to_lowercase` on ASCII bytes. -/
def toLowercaseAscii (s : List Nat) : List Nat :=
  s.map (fun b => if 65 ≤ b ∧ b ≤ 90 then b + 32 else b)

/-- The action of Rust `String::to_uppercase` on ASCII bytes. -/
def toUppercaseAscii (s : List Nat) : List Nat :=
  s.map (fun b => if 97 ≤ b ∧ b ≤ 122 then b - 32 else b)

namespace ParanoidHash

/-- `ParanoidHash::new` from lib.rs: accepts the digest only when
`digest > 0 && digest <= 64`, otherwise panics (modelled as `none`). -/
def new (digest : Nat) (os_hash : OsAlgorithm) : Option ParanoidHash :=
  if digest > 0 ∧ digest ≤ 64 then
    some { digest_size := digest, os_hash_function := os_hash }
  else
    none

/-- `ParanoidHash::read_bytes` from lib.rs: BLAKE2b at the configured digest
size (unkeyed, `Blake2b::new` equals `with_key` with the empty key) and the
selected platform hash over the same bytes, both upper-hex encoded. -/
def read_bytes (self : ParanoidHash) (bytes : List Nat) : List Nat × List Nat :=
  let hash := blake2b self.digest_size [] bytes
  let os_hash := osHashBytes self.os_hash_function bytes
  (hexEncodeUpper hash, hexEncodeUpper os_hash)

/-- `ParanoidHash::read` from lib.rs: the existence check plus the
memory-mapped `FileBuffer::open` full-content read are modelled together as
the filesystem lookup (the spec fixes that the buffer strategy "must produce
byte-identical content", namely the entire file's bytes). -/
def read (self : ParanoidHash) (fs : FileSystem) (path : String) :
    Except FileError (List Nat × List Nat) :=
  match fs path with
  | none => Except.error FileError.FileNotFound
  | some fbuffer =>
      let hash := blake2b self.digest_size [] fbuffer
      let os_hash := osHashBytes self.os_hash_function fbuffer
      Except.ok (hexEncodeUpper hash, hexEncodeUpper os_hash)

/-- `ParanoidHash::read_with_key` from lib.rs: identical to `read` except the
BLAKE2b context is keyed (`Blake2b::with_key`); the platform hasher is built
exactly as in `read`, with no key. -/
def read_with_key (self : ParanoidHash) (fs : FileSystem) (path : String)
    (key : List Nat) : Except FileError (List Nat × List Nat) :=
  match fs path with
  | none => Except.error FileError.FileNotFound
  | some fbuffer =>
      let hash := blake2b self.digest_size key fbuffer
      let os_hash := osHashBytes self.os_hash_function fbuffer
      Except.ok (hexEncodeUpper hash, hexEncodeUpper os_hash)

/-- `ParanoidHash::read_using_std` from lib.rs: the existence check plus the
`std::fs::read` full-content read, modelled as the same filesystem lookup
(the spec fixes both file-access strategies to yield the file's bytes). -/
def read_using_std (self : ParanoidHash) (fs : FileSystem) (path : String) :
    Except FileError (List Nat × List Nat) :=
  match fs path with
  | none => Except.error FileError.FileNotFound
  | some fbuffer =>
      let hash := blake2b self.digest_size [] fbuffer
      let os_hash := osHashBytes self.os_hash_function fbuffer
      Except.ok (hexEncodeUpper hash, hexEncodeUpper os_hash)

/-- `ParanoidHash::decode_from_hex` from lib.rs: `hex::decode(s).unwrap()`;
the unwrap panic on malformed input is modelled as `none`. -/
def decode_from_hex (s : List Nat) : Option (List Nat) :=
  hexDecode s

/-- `ParanoidHash::compare_hash` from lib.rs: lowercase both inputs, return
`false` on a length mismatch, otherwise fold the bitwise OR of the pairwise
XORs over the zipped bytes and compare the accumulator with zero. -/
def compare_hash (hash1 hash2 : List Nat) : Bool :=
  let hash1_lowercase := toLowercaseAscii hash1
  let hash2_lowercase := toLowercaseAscii hash2
  if hash1_lowercase.length ≠ hash2_lowercase.length then
    false
  else
    decide (((hash1_lowercase.zip hash2_lowercase).foldl
      (fun acc p => acc ||| (p.1 ^^^ p.2)) 0) = 0)

end ParanoidHash

/-- Following the spec's words (§4.5), stated independently of the code:
lowercase both inputs; if the lengths differ return false; otherwise fold
over the paired bytes accumulating the bitwise OR of each pairwise XOR
(processing the full common length), returning true iff the accumulated
value is zero. -/
def specCompare (a b : List Nat) : Bool :=
  let la := toLowercaseAscii a
  let lb := toLowercaseAscii b
  if la.length = lb.length then
    decide ((List.zipWith (fun x y => x ^^^ y) la lb).foldl
      (fun acc d => acc ||| d) 0 = 0)
  else
    false

/-- The bitwise OR of two naturals is zero exactly when both are zero. -/
lemma natOr_eq_zero_iff (a b : Nat) : a ||| b = 0 ↔ a = 0 ∧ b = 0 := by
  constructor
  · intro h
    have ha : ∀ i, Nat.testBit a i = false ∧ Nat.testBit b i = false := by
      intro i
      have hc := congrArg (fun n => Nat.testBit n i) h
      simpa [Nat.testBit_lor] using hc
    exact ⟨Nat.zero_of_testBit_eq_false (fun i => (ha i).1),
           Nat.zero_of_testBit_eq_false (fun i => (ha i).2)⟩
  · rintro ⟨rfl, rfl⟩
    rfl

/-- Folding bitwise OR yields zero exactly when the accumulator and every
element are zero. -/
lemma foldl_or_eq_zero_iff (l : List Nat) (acc : Nat) :
    l.foldl (fun a d => a ||| d) acc = 0 ↔ acc = 0 ∧ ∀ d ∈ l, d = 0 := by
  induction l generalizing acc with
  | nil => simp
  | cons hd tl ih =>
      simp only [List.foldl_cons, ih, natOr_eq_zero_iff, List.mem_cons]
      constructor
      · rintro ⟨⟨h1, h2⟩, h3⟩
        exact ⟨h1, fun d hd' => hd'.elim (fun e => e ▸ h2) (h3 d)⟩
      · rintro ⟨h1, h2⟩
        exact ⟨⟨h1, h2 hd (Or.inl rfl)⟩, fun d hd' => h2 d (Or.inr hd')⟩

/-- The paired fold of `compare_hash` coincides with an OR-fold over the
pointwise XOR list. -/
lemma zip_fold_eq_zipWith_fold (l₁ l₂ : List Nat) (acc : Nat) :
    (l₁.zip l₂).foldl (fun acc p => acc ||| (p.1 ^^^ p.2)) acc
      = (List.zipWith (fun x y => x ^^^ y) l₁ l₂).foldl (fun a d => a ||| d) acc := by
  induction l₁ generalizing l₂ acc with
  | nil => simp
  | cons h t ih =>
      cases l₂ with
      | nil => simp
      | cons h2 t2 => simp [ih]

/-- For equal-length lists, every pointwise XOR vanishes exactly when the
lists are equal. -/
lemma zipWith_xor_all_zero_iff (l₁ l₂ : List Nat) (h : l₁.length = l₂.length) :
    (∀ d ∈ List.zipWith (fun x y => x ^^^ y) l₁ l₂, d = 0) ↔ l₁ = l₂ := by
  induction l₁ generalizing l₂ with
  | nil => cases l₂ <;> simp_all
  | cons hd tl ih =>
      cases l₂ with
      | nil => simp at h
      | cons hd2 tl2 =>
          have hlen : tl.length = tl2.length := by simpa using h
          simp only [List.zipWith_cons_cons, List.forall_mem_cons,
            List.cons.injEq, Nat.xor_eq_zero, ih tl2 hlen]

/-- `compare_hash` returns `true` exactly when the lowercased inputs agree. -/
lemma compare_hash_eq_true_iff (a b : List Nat) :
    ParanoidHash.compare_hash a b = true
      ↔ toLowercaseAscii a = toLowercaseAscii b := by
  simp only [ParanoidHash.compare_hash]
  by_cases h : (toLowercaseAscii a).length = (toLowercaseAscii b).length
  · rw [if_neg (by simpa using h), decide_eq_true_eq,
      zip_fold_eq_zipWith_fold, foldl_or_eq_zero_iff]
    simp [zipWith_xor_all_zero_iff _ _ h]
  · rw [if_pos (by simpa using h)]
    simp only [Bool.false_eq_true, false_iff]
    intro heq
    exact h (congrArg List.length heq)

/-- C1: for all inputs, `compare_hash` computes its result by the algorithm
the spec states: lowercase both inputs, return false on a length mismatch,
otherwise fold over all paired bytes accumulating the bitwise OR of each
pairwise XOR (the full length is processed), returning true iff the
accumulated value is zero. -/
theorem compare_hash_follows_spec_algorithm (a b : List Nat) :
    ParanoidHash.compare_hash a b = specCompare a b := by
  simp only [ParanoidHash.compare_hash, specCompare]
  by_cases h : (toLowercaseAscii a).length = (toLowercaseAscii b).length
  · rw [if_neg (by simpa using h), if_pos h, zip_fold_eq_zipWith_fold]
  · rw [if_pos (by simpa using h), if_neg h]

/-- C2: `compare_hash x x = true` for any string; `compare_hash x y = false`
when the lengths differ or the (case-insensitive) contents differ; and
`compare_hash` is case-insensitive, e.g. on "AB12" versus "ab12". -/
theorem compare_hash_algebraic (x y : List Nat) :
    ParanoidHash.compare_hash x x = true
  ∧ (x.length ≠ y.length → ParanoidHash.compare_hash x y = false)
  ∧ (toLowercaseAscii x ≠ toLowercaseAscii y →
      ParanoidHash.compare_hash x y = false)
  ∧ ParanoidHash.compare_hash [65, 66, 49, 50] [97, 98, 49, 50] = true := by
  refine ⟨(compare_hash_eq_true_iff x x).mpr rfl, ?_, ?_, by decide⟩
  · intro hlen
    cases hb : ParanoidHash.compare_hash x y with
    | false => rfl
    | true =>
        exfalso
        have heq := (compare_hash_eq_true_iff x y).mp hb
        exact hlen (by simpa [toLowercaseAscii] using congrArg List.length heq)
  · intro hct
    cases hb : ParanoidHash.compare_hash x y with
    | false => rfl
    | true => exact absurd ((compare_hash_eq_true_iff x y).mp hb) hct

/-- Witness for C2 at concrete inputs: a length mismatch and a content
mismatch both yield `false`. -/
theorem compare_hash_algebraic_witness :
    ParanoidHash.compare_hash [97] [97, 98] = false
  ∧ ParanoidHash.compare_hash [97] [98] = false :=
  ⟨(compare_hash_algebraic [97] [97, 98]).2.1 (by decide),
   (compare_hash_algebraic [97] [98]).2.2.1 (by decide)⟩

/-- Decoding an uppercase hex digit recovers the encoded value. -/
lemma hexVal_hexDigitUpper : ∀ x < 16, hexVal (hexDigitUpper x) = some x := by
  decide

/-- A hex digit character decodes to a value below 16. -/
lemma hexVal_lt (c v : Nat) (h : hexVal c = some v) : v < 16 := by
  unfold hexVal at h
  split_ifs at h <;> simp_all <;> omega

/-- Re-encoding the value of a hex digit character yields the uppercased
character. -/
lemma hexDigitUpper_hexVal (c v : Nat) (h : hexVal c = some v) :
    hexDigitUpper v = if 97 ≤ c ∧ c ≤ 122 then c - 32 else c := by
  unfold hexVal at h
  unfold hexDigitUpper
  split_ifs at h <;> simp_all <;> split_ifs <;> omega

/-- Decoding inverts uppercase hex encoding on byte sequences. -/
lemma hexDecode_hexEncodeUpper (bs : List Nat) (h : ∀ b ∈ bs, b < 256) :
    hexDecode (hexEncodeUpper bs) = some bs := by
  induction bs with
  | nil => rfl
  | cons b rest ih =>
      have hb : b < 256 := h b (List.mem_cons_self b rest)
      have h1 : b / 16 < 16 := by omega
      have h2 : b % 16 < 16 := by omega
      have h3 : 16 * (b / 16) + b % 16 = b := by omega
      simp only [hexEncodeUpper, hexDecode, hexVal_hexDigitUpper _ h1,
        hexVal_hexDigitUpper _ h2, ih (fun x hx => h x (List.mem_cons_of_mem _ hx)),
        Option.bind_eq_bind, Option.some_bind, h3]
      rfl

/-- Encoding inverts decoding on well-formed even-length hex strings, up to
uppercasing. -/
lemma hexEncodeUpper_hexDecode (s : List Nat) :
    s.length % 2 = 0 → (∀ c ∈ s, (hexVal c).isSome) →
    ∃ bs, hexDecode s = some bs ∧ hexEncodeUpper bs = toUppercaseAscii s := by
  induction s using hexDecode.induct with
  | case1 => exact fun _ _ => ⟨[], rfl, rfl⟩
  | case2 c => intro h1 _; simp at h1
  | case3 c1 c2 rest ih =>
      intro h1 h2
      obtain ⟨v1, hv1⟩ := Option.isSome_iff_exists.mp (h2 c1 (by simp))
      obtain ⟨v2, hv2⟩ := Option.isSome_iff_exists.mp (h2 c2 (by simp))
      have hrlen : rest.length % 2 = 0 := by
        have : (c1 :: c2 :: rest).length = rest.length + 2 := by simp
        omega
      obtain ⟨bs, hbs, henc⟩ := ih hrlen (fun c hc => h2 c (by simp [hc]))
      have hlt1 := hexVal_lt c1 v1 hv1
      have hlt2 := hexVal_lt c2 v2 hv2
      refine ⟨(16 * v1 + v2) :: bs, ?_, ?_⟩
      · simp [hexDecode, hv1, hv2, hbs]
      · have e1 : (16 * v1 + v2) / 16 = v1 := by omega
        have e2 : (16 * v1 + v2) % 16 = v2 := by omega
        simp only [hexEncodeUpper, e1, e2, henc, toUppercaseAscii, List.map_cons,
          hexDigitUpper_hexVal c1 v1 hv1, hexDigitUpper_hexVal c2 v2 hv2]

/-- Decoding fails exactly on malformed input: odd length or a non-hex
character. -/
lemma hexDecode_eq_none_iff (s : List Nat) :
    hexDecode s = none ↔ s.length % 2 = 1 ∨ ∃ c ∈ s, hexVal c = none := by
  induction s using hexDecode.induct with
  | case1 => simp [hexDecode]
  | case2 c => simp [hexDecode]
  | case3 c1 c2 rest ih =>
      have hlen : (c1 :: c2 :: rest).length % 2 = rest.length % 2 := by
        simp only [List.length_cons]
        omega
      rcases hv1 : hexVal c1 with _ | v1
      · simp [hexDecode, hv1]
      · rcases hv2 : hexVal c2 with _ | v2
        · simp [hexDecode, hv1, hv2]
        · simp only [hexDecode, hv1, hv2, Option.bind_eq_bind, Option.some_bind,
            hlen]
          rcases hr : hexDecode rest with _ | bs
          · simp only [Option.none_bind]
            constructor
            · intro _
              rcases ih.mp hr with h | ⟨c, hc, hcn⟩
              · exact Or.inl h
              · exact Or.inr ⟨c, by simp [hc], hcn⟩
            · intro _
              trivial
          · simp only [Option.some_bind]
            have hnot : ¬(rest.length % 2 = 1 ∨ ∃ c ∈ rest, hexVal c = none) := by
              rw [← ih, hr]
              simp
            constructor
            · intro h
              simp [pure] at h
            · rintro (h | ⟨c, hc, hcn⟩)
              · exact absurd (Or.inl h) hnot
              · simp only [List.mem_cons] at hc
                rcases hc with rfl | rfl | hc
                · rw [hv1] at hcn
                  cases hcn
                · rw [hv2] at hcn
                  cases hcn
                · exact absurd (Or.inr ⟨c, hc, hcn⟩) hnot

/-- C3: hex round-trip laws: decoding inverts uppercase encoding for all
byte sequences, and encoding the decoding of any well-formed even-length hex
string yields its uppercasing. -/
theorem hex_round_trip :
    (∀ bs : List Nat, (∀ b ∈ bs, b < 256) →
      ParanoidHash.decode_from_hex (hexEncodeUpper bs) = some bs)
  ∧ (∀ s : List Nat, s.length % 2 = 0 → (∀ c ∈ s, (hexVal c).isSome) →
      ∃ bs, ParanoidHash.decode_from_hex s = some bs
        ∧ hexEncodeUpper bs = toUppercaseAscii s) :=
  ⟨fun bs h => hexDecode_hexEncodeUpper bs h,
   fun s h1 h2 => hexEncodeUpper_hexDecode s h1 h2⟩

/-- Witness for C3 at concrete inputs: the byte sequence `[171, 5]` and the
hex string "aF". -/
theorem hex_round_trip_witness :
    ParanoidHash.decode_from_hex (hexEncodeUpper [171, 5]) = some [171, 5]
  ∧ ∃ bs, ParanoidHash.decode_from_hex [97, 70] = some bs
      ∧ hexEncodeUpper bs = toUppercaseAscii [97, 70] :=
  ⟨hex_round_trip.1 [171, 5] (by decide),
   hex_round_trip.2 [97, 70] (by decide) (by decide)⟩

/-- C8: `decode_from_hex` fails (modelled as `none`, the unwrap panic)
exactly when the input is malformed — odd length or a non-hex character —
and succeeds with the decoded bytes on every well-formed even-length hex
string. -/
theorem decode_from_hex_malformed (s : List Nat) :
    (ParanoidHash.decode_from_hex s = none ↔
      s.length % 2 = 1 ∨ ∃ c ∈ s, hexVal c = none)
  ∧ (s.length % 2 = 0 → (∀ c ∈ s, (hexVal c).isSome) →
      ∃ bs, ParanoidHash.decode_from_hex s = some bs) := by
  constructor
  · exact hexDecode_eq_none_iff s
  · intro h1 h2
    obtain ⟨bs, hbs, _⟩ := hexEncodeUpper_hexDecode s h1 h2
    exact ⟨bs, hbs⟩

/-- Witness for C8 at concrete inputs: the odd-length string "4" and the
well-formed string "4F". -/
theorem decode_from_hex_malformed_witness :
    (ParanoidHash.decode_from_hex [52] = none ↔
      ([52] : List Nat).length % 2 = 1 ∨ ∃ c ∈ ([52] : List Nat), hexVal c = none)
  ∧ ∃ bs, ParanoidHash.decode_from_hex [52, 70] = some bs :=
  ⟨(decode_from_hex_malformed [52]).1,
   (decode_from_hex_malformed [52, 70]).2 (by decide) (by decide)⟩

/-- Hex encoding doubles the length. -/
lemma hexEncodeUpper_length (bs : List Nat) :
    (hexEncodeUpper bs).length = 2 * bs.length := by
  induction bs with
  | nil => rfl
  | cons b rest ih =>
      simp only [hexEncodeUpper, List.length_cons, ih]
      omega

/-- The modelled BLAKE2b primitive produces `outLen` bytes. -/
lemma blake2b_length (outLen : Nat) (key data : List Nat) :
    (blake2b outLen key data).length = outLen := by
  simp [blake2b]

/-- The modelled platform primitive produces its algorithm's fixed number of
bytes. -/
lemma osHashBytes_length (alg : OsAlgorithm) (data : List Nat) :
    (osHashBytes alg data).length = osDigestLength alg := by
  simp [osHashBytes]

/-- C4: for any configuration with digest size in [1,64] and any input, the
portable component of `read_bytes` has exactly `2 * digest_size` hex
characters and the platform component has the fixed per-algorithm length:
40 for SHA1, 64 for SHA256, 128 for SHA512. -/
theorem read_bytes_digest_lengths (self : ParanoidHash) (bytes : List Nat)
    (h1 : 1 ≤ self.digest_size) (h2 : self.digest_size ≤ 64) :
    (self.read_bytes bytes).1.length = 2 * self.digest_size
  ∧ (self.read_bytes bytes).2.length =
      (match self.os_hash_function with
        | OsAlgorithm.SHA1 => 40
        | OsAlgorithm.SHA256 => 64
        | OsAlgorithm.SHA512 => 128) := by
  obtain ⟨d, alg⟩ := self
  constructor
  · simp [ParanoidHash.read_bytes, hexEncodeUpper_length, blake2b_length]
  · simp only [ParanoidHash.read_bytes, hexEncodeUpper_length, osHashBytes_length]
    cases alg <;> rfl

/-- Witness for C4 at the default configuration and the input `[0]`. -/
theorem read_bytes_digest_lengths_witness :
    (ParanoidHash.read_bytes ⟨64, OsAlgorithm.SHA512⟩ [0]).1.length = 128
  ∧ (ParanoidHash.read_bytes ⟨64, OsAlgorithm.SHA512⟩ [0]).2.length = 128 :=
  read_bytes_digest_lengths ⟨64, OsAlgorithm.SHA512⟩ [0] (by decide) (by decide)

/-- C5: the key affects only the portable digest: the platform component of
`read_with_key` equals the platform component of the unkeyed `read`, for
every configuration, filesystem, path and key. -/
theorem read_with_key_platform_component_unkeyed (self : ParanoidHash)
    (fs : FileSystem) (path : String) (key : List Nat) :
    Except.map Prod.snd (self.read_with_key fs path key)
      = Except.map Prod.snd (self.read fs path) := by
  unfold ParanoidHash.read_with_key ParanoidHash.read
  cases fs path <;> rfl

/-- C6: on a path that does not exist, all three file-reading entry points
return the recoverable `FileNotFound` error (no unrecoverable fault). -/
theorem missing_file_returns_FileNotFound (self : ParanoidHash)
    (fs : FileSystem) (path : String) (key : List Nat) (h : fs path = none) :
    self.read fs path = Except.error FileError.FileNotFound
  ∧ self.read_with_key fs path key = Except.error FileError.FileNotFound
  ∧ self.read_using_std fs path = Except.error FileError.FileNotFound := by
  refine ⟨?_, ?_, ?_⟩ <;>
    simp [ParanoidHash.read, ParanoidHash.read_with_key,
      ParanoidHash.read_using_std, h]

/-- Witness for C6 on the empty filesystem. -/
theorem missing_file_returns_FileNotFound_witness :
    ParanoidHash.read ⟨64, OsAlgorithm.SHA512⟩ (fun _ => none) "missing.txt"
      = Except.error FileError.FileNotFound
  ∧ ParanoidHash.read_with_key ⟨64, OsAlgorithm.SHA512⟩ (fun _ => none)
      "missing.txt" [1, 2] = Except.error FileError.FileNotFound
  ∧ ParanoidHash.read_using_std ⟨64, OsAlgorithm.SHA512⟩ (fun _ => none)
      "missing.txt" = Except.error FileError.FileNotFound :=
  missing_file_returns_FileNotFound ⟨64, OsAlgorithm.SHA512⟩ (fun _ => none)
    "missing.txt" [1, 2] rfl

/-- C7: construction fails (panic, modelled as `none`) exactly when the
digest size is 0 or above 64; for any size in [1,64] the constructed value
stores that exact size (never clamped or truncated). -/
theorem new_validates_digest_size (d : Nat) (a : OsAlgorithm) :
    (ParanoidHash.new d a = none ↔ d = 0 ∨ 64 < d)
  ∧ (1 ≤ d → d ≤ 64 →
      ParanoidHash.new d a = some { digest_size := d, os_hash_function := a }) := by
  constructor
  · unfold ParanoidHash.new
    split_ifs with h
    · simp only [reduceCtorEq, false_iff]
      omega
    · simp only [true_iff]
      omega
  · intro h1 h2
    unfold ParanoidHash.new
    rw [if_pos ⟨h1, h2⟩]

/-- Witness for C7 at digest size 64. -/
theorem new_validates_digest_size_witness :
    ParanoidHash.new 64 OsAlgorithm.SHA512
      = some { digest_size := 64, os_hash_function := OsAlgorithm.SHA512 } :=
  (new_validates_digest_size 64 OsAlgorithm.SHA512).2 (by decide) (by decide)

/-- C9: for every existing file, the memory-mapped variant `read` and the
`std::fs` variant `read_using_std` return identical digest pairs. -/
theorem read_equals_read_using_std (self : ParanoidHash) (fs : FileSystem)
    (path : String) (_h : (fs path).isSome) :
    self.read fs path = self.read_using_std fs path := by
  unfold ParanoidHash.read ParanoidHash.read_using_std
  cases fs path <;> rfl

/-- Witness for C9 on a one-file filesystem. -/
theorem read_equals_read_using_std_witness :
    ParanoidHash.read ⟨64, OsAlgorithm.SHA512⟩ (fun _ => some [104, 105]) "a.txt"
      = ParanoidHash.read_using_std ⟨64, OsAlgorithm.SHA512⟩
          (fun _ => some [104, 105]) "a.txt" :=
  read_equals_read_using_std ⟨64, OsAlgorithm.SHA512⟩ (fun _ => some [104, 105])
    "a.txt" rfl

/-- C10: no public operation ever returns `FileError.OsHashingError`: the
only error value any of the fallible entry points can return is
`FileNotFound` (an OS-hash write failure panics via `expect` in the source
instead of producing this variant). -/
theorem OsHashingError_never_returned (self : ParanoidHash) (fs : FileSystem)
    (path : String) (key : List Nat) :
    self.read fs path ≠ Except.error FileError.OsHashingError
  ∧ self.read_with_key fs path key ≠ Except.error FileError.OsHashingError
  ∧ self.read_using_std fs path ≠ Except.error FileError.OsHashingError := by
  refine ⟨?_, ?_, ?_⟩ <;>
    rcases h : fs path with _ | data <;>
      simp [ParanoidHash.read, ParanoidHash.read_with_key,
        ParanoidHash.read_using_std, h]
